import Mathlib

set_option maxRecDepth 8000

/-!
# Verification of the jinja2cpp expression-evaluation and filter core

Shallow embedding of the expression evaluator (`src/expression_evaluator.cpp`),
the call-parameter binder (`helpers::ParseCallParamsImpl`) and the string
converter filters (`src/string_converter_filter.cpp`), together with theorems
settling the specification claims.

Modelling conventions:
* C++ `InternalValue` is the tagged variant `Value` below.  Pool allocation,
  the `temporary` flag and `parent_ref` lifetime links only select storage for
  results; they do not influence any produced data and are not modelled.
* Narrow strings (`std::string`) are modelled as `List Char`; the wide/narrow
  width coercion machinery is orthogonal to every claim and is not modelled.
* Machine integers (`int64_t`) are modelled as `Int`; the division in
  `CallGlobalRange` uses `Int.tdiv`, which truncates toward zero exactly like
  C++ `/` on `int64_t`.
* Side effects observable during evaluation (the point of the short-circuit
  claim) are modelled by threading a `Nat` counter of "observable effect"
  events through evaluation; a `tick` expression bumps it when evaluated.
* Out-of-bounds reads and null-pointer dereferences in the C++ are undefined
  behaviour; where a claim hinges on such a path the embedding returns `none`
  (see `CallLoopCycle`).
-/

namespace Jinja2Cpp

/-- The callable kind discriminator (`Callable::Kind` in `internal_value.h`,
referenced by `CallExpression::CallArbitraryFn`). -/
inductive CallableKind where
  | GlobalFunc
  | UserCallable
  | Macro
  | SpecialFn (id : Int)
  deriving DecidableEq, Repr

/-- The callable body shape (`Callable::Type`): an expression callable returns
a value, a statement callable writes text to a stream. -/
inductive CallableType where
  | Expression
  | Statement
  deriving DecidableEq, Repr

/-- `InternalValue`: tagged variant over empty, boolean, integer, string,
list adapter, map adapter and callable.  A callable carries its kind, its
type, and the value it produces when invoked (the C++ body is an opaque
`std::function`; invoking it is recorded as an observable effect by the
evaluator, and `ret` is the value it returns / the text it writes). -/
inductive Value where
  | empty
  | bool (b : Bool)
  | int (n : Int)
  | str (s : List Char)
  | list (xs : List Value)
  | map (m : List (String × Value))
  | callable (kind : CallableKind) (ctype : CallableType) (ret : Value)
  deriving Repr

/-- `IsEmpty` on `InternalValue`. -/
def IsEmptyV : Value → Bool
  | .empty => true
  | _ => false

/-- Modelled from the spec: `ConvertToBool` (value_visitors.h is not under
src/).  Spec 4.A: empty is falsy, booleans are themselves, numbers are truthy
when nonzero, strings/containers are truthy when non-empty. -/
def ConvertToBool : Value → Bool
  | .empty => false
  | .bool b => b
  | .int n => n != 0
  | .str s => !s.isEmpty
  | .list xs => !xs.isEmpty
  | .map m => !m.isEmpty
  | .callable _ _ _ => true

/-- Modelled from the spec: string-to-integer parsing used by `ConvertToInt`
("string → parsed or default"): an optional minus sign followed by decimal
digits. -/
def parseIntChars (s : List Char) (dflt : Int) : Int :=
  match s with
  | '-' :: rest =>
      if !rest.isEmpty && rest.all Char.isDigit then
        -(rest.foldl (fun a c => a * 10 + (c.toNat - '0'.toNat)) 0 : Nat)
      else dflt
  | _ =>
      if !s.isEmpty && s.all Char.isDigit then
        (s.foldl (fun a c => a * 10 + (c.toNat - '0'.toNat)) 0 : Nat)
      else dflt

/-- Modelled from the spec: `ConvertToInt(v, default)` (value_visitors.h is
not under src/).  Spec 4.A: empty → default, bool → 0/1, number → itself,
string → parsed or default; containers and callables are unrepresentable and
give the default. -/
def ConvertToInt (v : Value) (dflt : Int := 0) : Int :=
  match v with
  | .empty => dflt
  | .bool b => if b then 1 else 0
  | .int n => n
  | .str s => parseIntChars s dflt
  | .list _ => dflt
  | .map _ => dflt
  | .callable _ _ _ => dflt

/-- Modelled from the spec: `visitors::IntegerEvaluator` — "coerces any value
to int64, returning 0 for unrepresentable" (spec 4.B). -/
def IntegerEvaluator (v : Value) : Int :=
  ConvertToInt v 0

/-- First-match association-list lookup; models `std::map::find` /
`std::unordered_map::find` on maps whose keys are unique. -/
def lookupArg {β : Type} (m : List (String × β)) (k : String) : Option β :=
  match m with
  | [] => none
  | (k', v) :: rest => if k' = k then some v else lookupArg rest k

/-- `m[k] = v` on a C++ map: overwrite the binding if the key is present,
otherwise append it. -/
def setArg {β : Type} (m : List (String × β)) (k : String) (v : β) : List (String × β) :=
  match m with
  | [] => [(k, v)]
  | (k', v') :: rest => if k' = k then (k, v) :: rest else (k', v') :: setArg rest k v

/-- Modelled from the spec: `Subscript(value, key, ctx)` for a string key
(internal_value.cpp is not under src/).  Spec 4.C: string key on a map
returns the entry or the empty value on a miss; every other base yields the
empty value for a string key. -/
def SubscriptStr (v : Value) (key : String) : Value :=
  match v with
  | .map m => (lookupArg m key).getD .empty
  | _ => .empty

end Jinja2Cpp

namespace Jinja2Cpp

/-! ## String converter filters (`string_converter_filter.cpp`) -/

/-- `boost::algorithm::is_alnum()` under the default "C" locale: ASCII
letters and digits. -/
def isAlNumC (c : Char) : Bool :=
  c.isAlpha || c.isDigit

/-- `std::isspace` under the "C" locale, as used by `ba::trim_right`. -/
def isSpaceC (c : Char) : Bool :=
  c = ' ' || c = '\t' || c = '\n' || c = '\x0b' || c = '\x0c' || c = '\r'

/-- `ba::trim_right(str)`: drop trailing whitespace. -/
def trimRight (s : List Char) : List Char :=
  (s.reverse.dropWhile isSpaceC).reverse

/-- The truncate forward scan over the characters from position `p` on
(`for (; leeway != 0 && p != str.end() && isAlNum(*p); --leeway, ++p);`),
phrased structurally on the remaining suffix of the string. -/
def truncScanFwdAux (rest : List Char) (p : Nat) (leeway : Int) : Nat :=
  match rest with
  | [] => p
  | c :: rest' =>
      if leeway != 0 && isAlNumC c then truncScanFwdAux rest' (p + 1) (leeway - 1)
      else p

/-- The truncate forward scan starting at index `p` of `s`: advance over
alphanumeric characters while leeway remains. -/
def truncScanFwd (s : List Char) (p : Nat) (leeway : Int) : Nat :=
  truncScanFwdAux (s.drop p) p leeway

/-- The truncate backward scan
(`for (; p != str.begin() && isAlNum(*p); --p);`): move `p` left while it
sits on an alphanumeric character. -/
def truncScanBack (s : List Char) : Nat → Nat
  | 0 => 0
  | p + 1 => if isAlNumC (s.getD (p + 1) ' ') then truncScanBack s p else p + 1

/-- Shared tail of the word-boundary path of `StringConverter::Filter`
(TruncateMode): if `p` is inside a word scan back to before the word, erase
from `p` to the end, right-trim, append the end marker. -/
def truncFinish (s : List Char) (p : Nat) (endStr : List Char) : List Char :=
  let q := if isAlNumC (s.getD p ' ') then truncScanBack s p else p
  trimRight (s.take q) ++ endStr

/-- `StringConverter::Filter`, TruncateMode, after argument extraction.
Mirrors string_converter_filter.cpp lines 269–310.  A negative `length`
reaching the cut paths is undefined behaviour in the C++ (iterator before the
front); `Int.toNat` maps that region to 0. -/
def TruncateFilterImpl (src : List Char) (length : Int) (killWords : Bool)
    (endStr : List Char) (leeway : Int) : List Char :=
  if (src.length : Int) ≤ length then src
  else if killWords then
    if (src.length : Int) > length + leeway then src.take length.toNat ++ endStr
    else src
  else
    let p0 := length.toNat
    if leeway != 0 then
      let p1 := truncScanFwd src p0 leeway
      if p1 = src.length then src
      else truncFinish src p1 endStr
    else truncFinish src p0 endStr

/-- The truncate filter with its argument schema
(`StringConverter::StringConverter`, TruncateMode): `length` defaults to 255,
`killwords` to `false`, `end` to `"..."`; `leeway` has no schema default, so
an absent argument reaches `ConvertToInt(..., 5)` as the empty value and
becomes 5.  `none` models an argument the caller did not provide. -/
def TruncateFilter (src : List Char) (lengthArg killwordsArg endArg leewayArg : Option Value) :
    List Char :=
  let length := ConvertToInt (lengthArg.getD (.int 255)) 0
  let killWords := ConvertToBool (killwordsArg.getD (.bool false))
  let endStr := match (endArg.getD (.str ['.', '.', '.'])) with
    | .str s => s
    | _ => []
  let leeway := ConvertToInt (leewayArg.getD .empty) 5
  TruncateFilterImpl src length killWords endStr leeway

/-- Index of the first occurrence of `pat` in `s`
(`boost::algorithm::first_finder`).  An empty pattern matches at index 0 of a
non-empty string, like boost's empty-range match at the begin iterator. -/
def findSubstr (pat : List Char) : List Char → Option Nat
  | [] => none
  | c :: rest =>
      if pat.isPrefixOf (c :: rest) then some 0
      else (findSubstr pat rest).map (· + 1)

/-- `boost::algorithm::replace_first(str, old, new)`: replace the first
occurrence of `old` (if any) by `new`. -/
def replaceFirst (s old new : List Char) : List Char :=
  match findSubstr old s with
  | none => s
  | some i => s.take i ++ new ++ s.drop (i + old.length)

/-- `boost::algorithm::replace_all(str, old, new)` with explicit fuel:
left-to-right, non-overlapping replacement of every occurrence, continuing
after the replaced text so text introduced by a replacement is not
rescanned. -/
def replaceAllAux (old new : List Char) : Nat → List Char → List Char
  | 0, s => s
  | fuel + 1, s =>
      match findSubstr old s with
      | none => s
      | some i => s.take i ++ new ++ replaceAllAux old new fuel (s.drop (i + old.length))

/-- `boost::algorithm::replace_all(str, old, new)`.  For a non-empty `old`
every replacement consumes at least one character, so fuel `s.length + 1` is
never exhausted (the degenerate empty `old`, unused by any claim, inserts
`new` at most `s.length + 1` times here). -/
def replaceAll (old new s : List Char) : List Char :=
  replaceAllAux old new (s.length + 1) s

/-- `replace_first` applied `n` times in sequence
(the `for (int64_t n = 0; n < count; ++n)` loop of ReplaceMode). -/
def repFirstN (old new : List Char) : Nat → List Char → List Char
  | 0, s => s
  | n + 1, s => repFirstN old new n (replaceFirst s old new)

/-- `StringConverter::Filter`, ReplaceMode, after argument extraction
(lines 250–267): `count = 0` calls `replace_all`; otherwise `replace_first`
is applied `count` times in a loop (each pass rescans from the start of the
current string). -/
def ReplaceFilter (src old new : List Char) (count : Int) : List Char :=
  if count = 0 then replaceAll old new src
  else repFirstN old new count.toNat src

/-- The claim's replacement semantics: replace the first `n` occurrences of
`old`, scanning left to right, non-overlapping, continuing after each
replacement so that text introduced by a replacement is never matched again.
(Stated from the claim's words, for comparison with `ReplaceFilter`.) -/
def specReplaceN (old new : List Char) : Nat → List Char → List Char
  | 0, s => s
  | n + 1, s =>
      match findSubstr old s with
      | none => s
      | some i => s.take i ++ new ++ specReplaceN old new n (s.drop (i + old.length))

end Jinja2Cpp

namespace Jinja2Cpp

/-! ## The call-parameter binder (`helpers::ParseCallParamsImpl`) -/

/-- `helpers::ArgState`. -/
inductive ArgState where
  | NotFound
  | NotFoundMandatory
  | Keyword
  | Positional
  | Ignored
  deriving DecidableEq, Repr

/-- The per-slot record `ArgInfo` of `ParseCallParamsImpl` (minus the schema
pointer, which is kept as an index into the schema list).  `none` models the
`-1` sentinel of the doubly linked not-found chain. -/
structure ArgInfoRec where
  state : ArgState := .NotFound
  prevNotFound : Option Nat := none
  nextNotFound : Option Nat := none
  deriving DecidableEq, Repr

/-- `ArgumentInfo`: a declared parameter of the callee. -/
structure ArgumentInfo where
  name : String
  mandatory : Bool := false
  defaultVal : Value := .empty

/-- `CallParams`: ordered positional arguments plus an insertion-order map of
keyword arguments (unique keys), over an abstract expression type `α`
(`ExpressionEvaluatorPtr` in the C++). -/
structure CallParamsT (α : Type) where
  posParams : List α := []
  kwParams : List (String × α) := []

/-- A bound argument: either a caller expression, or a `ConstantExpression`
wrapping a declared default value. -/
inductive BoundArg (α : Type) where
  | expr (e : α)
  | defaultConst (v : Value)

/-- `ParsedArguments`: the binder's output. -/
structure ParsedArgumentsT (α : Type) where
  args : List (String × BoundArg α) := []
  extraPosArgs : List α := []
  extraKwArgs : List (String × α) := []

/-- Functional update of the `argsInfo` array (represented as a total
function; indices never written hold the default-initialised record, which is
also how the single out-of-bounds read the C++ can perform — see
`parseEatenCount` — is modelled). -/
def updInfo (f : Nat → ArgInfoRec) (i : Nat) (g : ArgInfoRec → ArgInfoRec) : Nat → ArgInfoRec :=
  fun j => if j = i then g (f j) else f j

/-- State carried by the first (keyword-matching) pass of
`ParseCallParamsImpl`. -/
structure FPState (α : Type) where
  info : Nat → ArgInfoRec
  args : List (String × BoundArg α)
  firstMandatoryIdx : Option Nat
  prevNotFound : Option Nat
  foundKwArgs : Nat

/-- Initial state of the first pass. -/
def fpInit (α : Type) : FPState α :=
  { info := fun _ => {}, args := [], firstMandatoryIdx := none,
    prevNotFound := none, foundKwArgs := 0 }

/-- The special declared-parameter names
(`argInfo.name == "*args" || argInfo.name == "**kwargs"`). -/
def isPlaceholder (ai : ArgumentInfo) : Prop :=
  ai.name = "*args" ∨ ai.name = "**kwargs"

instance (ai : ArgumentInfo) : Decidable (isPlaceholder ai) := by
  unfold isPlaceholder
  infer_instance

/-- One iteration of the keyword-matching loop (`for (auto& argInfo : args)`)
at schema index `idx`: `*args`/`**kwargs` slots are marked `Ignored`; a slot
whose name is a caller keyword is bound and marked `Keyword`; any other slot
is marked `NotFound`/`NotFoundMandatory` and appended to the doubly linked
not-found chain. -/
def firstPassStep {α : Type} (kw : List (String × α)) (st : FPState α) (idx : Nat)
    (ai : ArgumentInfo) : FPState α :=
  if isPlaceholder ai then
    { st with info := updInfo st.info idx (fun r => { r with state := .Ignored }) }
  else
    match lookupArg kw ai.name with
    | some e =>
        { st with
          info := updInfo st.info idx (fun r => { r with state := .Keyword }),
          args := setArg st.args ai.name (.expr e),
          foundKwArgs := st.foundKwArgs + 1 }
    | none =>
        let st1 : FPState α :=
          if ai.mandatory then
            { st with
              info := updInfo st.info idx (fun r => { r with state := .NotFoundMandatory }),
              firstMandatoryIdx :=
                match st.firstMandatoryIdx with
                | none => some idx
                | some j => some j }
          else
            { st with info := updInfo st.info idx (fun r => { r with state := .NotFound }) }
        let st2 : FPState α :=
          match st.prevNotFound with
          | some p =>
              { st1 with info := updInfo st1.info p (fun r => { r with nextNotFound := some idx }) }
          | none => st1
        { st2 with
          info := updInfo st2.info idx (fun r => { r with prevNotFound := st.prevNotFound }),
          prevNotFound := some idx }

/-- The slot state the keyword-matching pass assigns to a declared parameter
`ai` (a specification shorthand used by the binder lemmas): placeholders are
`Ignored`; a slot named like a caller keyword is `Keyword`; otherwise
`NotFoundMandatory`/`NotFound` according to the mandatory flag. -/
def stateOfSchema {α : Type} (kw : List (String × α)) (ai : ArgumentInfo) : ArgState :=
  if isPlaceholder ai then .Ignored
  else
    match lookupArg kw ai.name with
    | some _ => .Keyword
    | none => if ai.mandatory then .NotFoundMandatory else .NotFound

/-- The keyword-matching loop over the schema slots, starting at index
`idx`. -/
def firstPassAux {α : Type} (kw : List (String × α)) :
    List ArgumentInfo → Nat → FPState α → FPState α
  | [], _, st => st
  | ai :: rest, idx, st => firstPassAux kw rest (idx + 1) (firstPassStep kw st idx ai)

/-- The whole first pass of `ParseCallParamsImpl`. -/
def runFirstPass {α : Type} (schema : List ArgumentInfo) (kw : List (String × α)) : FPState α :=
  firstPassAux kw schema 0 (fpInit α)

/-- The `isFirstTime` scan of the window-locating loop, phrased structurally
on the number of slots left (`n - start`): with that fuel, fuel 0 is exactly
`start = args.size()`. -/
def scanStartAux (info : Nat → ArgInfoRec) : Nat → Nat → Nat
  | 0, start => start
  | fuel + 1, start =>
      if (info start).state = .Keyword ∨ (info start).state = .Positional then
        scanStartAux info fuel (start + 1)
      else start

/-- The `isFirstTime` scan of the window-locating loop
(`for (; startPosArg < args.size() && (Keyword || Positional); ++startPosArg)`). -/
def scanStart (info : Nat → ArgInfoRec) (n start : Nat) : Nat :=
  scanStartAux info (n - start) start

/-- Subsequent iterations of the window-locating loop of
`ParseCallParamsImpl` ("Determine the range for positional arguments
scanning"), entered at the loop-condition check.  Each iteration either
follows `prevNotFound` backwards from `startPosArg` (extending the window to
an earlier unbound slot) or follows `nextNotFound` forwards from `curPosArg`
(checking one more unbound slot exists), then adds one to `eatenPosArgs`
unless the slot at `startPosArg` is `Ignored`.  Every iteration moves `start`
strictly down or `cur` strictly up on the chains produced by the first pass,
so `2 * n + 2` fuel is never exhausted on states reachable from
`runFirstPass`; the fuel only guards Lean totality. -/
def rangeLoop (info : Nat → ArgInfoRec) (n nPos : Nat) :
    Nat → Nat → Nat → Nat → Nat × Nat
  | 0, start, _, eaten => (eaten, start)
  | fuel + 1, start, cur, eaten =>
      if eaten < nPos ∧ start < n then
        match (info start).prevNotFound with
        | some p =>
            rangeLoop info n nPos fuel p cur
              (eaten + if (info p).state = .Ignored then 0 else 1)
        | none =>
            if cur = n then (eaten, start)
            else
              match (info cur).nextNotFound with
              | none => (eaten, start)
              | some nx =>
                  rangeLoop info n nPos fuel start nx
                    (eaten + if (info start).state = .Ignored then 0 else 1)
      else (eaten, start)

/-- The window-locating loop: the first iteration runs the `isFirstTime`
scan and then performs the loop increment
(`eatenPosArgs += (argsInfo[startPosArg].state == Ignored ? 0 : 1)`); the
remaining iterations are `rangeLoop`.  When the scan runs past the last slot
(all slots keyword-bound) the C++ increment reads `argsInfo[args.size()]`,
one past the end — undefined behaviour, modelled as the default-initialised
record (state `NotFound`), i.e. the increment adds 1.  Returns
`(eatenPosArgs, startPosArg)`. -/
def locateWindow (info : Nat → ArgInfoRec) (n nPos start0 : Nat) : Nat × Nat :=
  if 0 < nPos ∧ start0 < n then
    let s1 := scanStart info n start0
    let e1 := if (info s1).state = .Ignored then 0 else 1
    rangeLoop info n nPos (2 * n + 2) s1 start0 e1
  else (0, start0)

/-- The "Map positional params to the desired arguments" loop: walk the
not-found chain from `startPosArg`, assigning the first `eatenPosArgs`
positional arguments (passed here as the list `pos`, already truncated to
`eatenPosArgs` elements) to successive slots; an `Ignored` slot is skipped by
`continue`, which still advances the positional index `idx`. -/
def mapPositionals {α : Type} (names : Nat → String) (n : Nat) :
    List α → Option Nat → (Nat → ArgInfoRec) → List (String × BoundArg α) →
    ((Nat → ArgInfoRec) × List (String × BoundArg α))
  | [], _, info, acc => (info, acc)
  | _ :: _, none, info, acc => (info, acc)
  | e :: rest, some cur, info, acc =>
      if cur < n then
        if (info cur).state = .Ignored then
          mapPositionals names n rest (info cur).nextNotFound info acc
        else
          mapPositionals names n rest (info cur).nextNotFound
            (updInfo info cur (fun r => { r with state := .Positional }))
            (setArg acc (names cur) (.expr e))
      else (info, acc)

/-- The "Fill default arguments (if missing) and check for mandatory" loop
over the schema slots from index `idx`: a `NotFound` slot with a non-empty
default is bound to a constant expression wrapping the default; a
`NotFoundMandatory` slot clears `isSucceeded`. -/
def finalizeAux {α : Type} (info : Nat → ArgInfoRec) :
    List ArgumentInfo → Nat → (List (String × BoundArg α) × Bool) →
    (List (String × BoundArg α) × Bool)
  | [], _, acc => acc
  | ai :: rest, idx, (args, ok) =>
      match (info idx).state with
      | .Positional => finalizeAux info rest (idx + 1) (args, ok)
      | .Keyword => finalizeAux info rest (idx + 1) (args, ok)
      | .Ignored => finalizeAux info rest (idx + 1) (args, ok)
      | .NotFound =>
          if IsEmptyV ai.defaultVal then finalizeAux info rest (idx + 1) (args, ok)
          else finalizeAux info rest (idx + 1) (setArg args ai.name (.defaultConst ai.defaultVal), ok)
      | .NotFoundMandatory => finalizeAux info rest (idx + 1) (args, false)

/-- Schema-slot name by index (`argsInfo[...].info->name`). -/
def schemaName (schema : List ArgumentInfo) (i : Nat) : String :=
  ((schema.get? i).map ArgumentInfo.name).getD ""

/-- `eatenPosArgs` together with the final `startPosArg` for a given schema
and call parameters (the values the two window loops of
`ParseCallParamsImpl` leave behind). -/
def parseEatenCount {α : Type} (schema : List ArgumentInfo) (params : CallParamsT α) :
    Nat × Nat :=
  let fp := runFirstPass schema params.kwParams
  let start0 := match fp.firstMandatoryIdx with
    | none => 0
    | some i => i
  locateWindow fp.info schema.length params.posParams.length start0

/-- `helpers::ParseCallParamsImpl(args, params, isSucceeded)`: the complete
binder.  Returns the `ParsedArguments` and the `isSucceeded` flag. -/
def ParseCallParamsImpl {α : Type} (schema : List ArgumentInfo) (params : CallParamsT α) :
    ParsedArgumentsT α × Bool :=
  let fp := runFirstPass schema params.kwParams
  let n := schema.length
  let es := parseEatenCount schema params
  let ia :=
    mapPositionals (schemaName schema) n (params.posParams.take es.1) (some es.2) fp.info fp.args
  let fin := finalizeAux ia.1 schema 0 (ia.2, true)
  let extraKw := params.kwParams.filter (fun kv => (lookupArg fin.1 kv.1).isNone)
  let extraPos := params.posParams.drop es.1
  ({ args := fin.1, extraPosArgs := extraPos, extraKwArgs := extraKw }, fin.2)

/-- The state of `ParseCallParamsImpl` after the positional-mapping loop
(the same computation as the corresponding stage inside
`ParseCallParamsImpl`, exposed for the binder lemmas). -/
def parseMapped {α : Type} (schema : List ArgumentInfo) (params : CallParamsT α) :
    (Nat → ArgInfoRec) × List (String × BoundArg α) :=
  mapPositionals (schemaName schema) schema.length
    (params.posParams.take (parseEatenCount schema params).1)
    (some (parseEatenCount schema params).2)
    (runFirstPass schema params.kwParams).info
    (runFirstPass schema params.kwParams).args

/-- The state of `ParseCallParamsImpl` after the defaults/mandatory loop:
the final argument map and the `isSucceeded` flag. -/
def parseFinal {α : Type} (schema : List ArgumentInfo) (params : CallParamsT α) :
    List (String × BoundArg α) × Bool :=
  finalizeAux (parseMapped schema params).1 schema 0 ((parseMapped schema params).2, true)

/-- The schema of claim C3's callee `f`: `(a, x, b='d')`. -/
def c3schema : List ArgumentInfo :=
  [{ name := "a", mandatory := true }, { name := "x", mandatory := true },
   { name := "b", defaultVal := .str ['d'] }]

/-- The call parameters of claim C3's call `f(1, 2, x=3)`: two positionals
and the keyword `x`, with opaque expression labels 101, 102, 103. -/
def c3params : CallParamsT Nat :=
  { posParams := [101, 102], kwParams := [("x", 103)] }

end Jinja2Cpp

namespace Jinja2Cpp

/-! ## The expression evaluator (`expression_evaluator.cpp`) -/

/-- The binary operations relevant to the logical-operator claims, plus `In`
(which `BinaryExpression::Evaluate` singles out on its right-operand line).
The arithmetic/comparison operations all dispatch to
`visitors::BinaryMathOperation` (not under src/) and are orthogonal to every
claim, so they are not part of the embedding. -/
inductive BinOp where
  | LogicalAnd
  | LogicalOr
  | In
  deriving DecidableEq, Repr

/-- Expression trees, as far as the claims need them: constants
(`ConstantExpression`), an expression with an observable side effect when
evaluated (`tick` — e.g. a call to a side-effecting user callable), and
binary expressions. -/
inductive Expr where
  | const (v : Value)
  | tick (v : Value)
  | bin (op : BinOp) (l : Expr) (r : Expr)

/-- Modelled from the spec: scalar equality used by the built-in `in` tester
(testers.cpp is not under src/); container elements that are themselves
containers or callables are never equal here, which no claim exercises. -/
def scalarValueEq : Value → Value → Bool
  | .empty, .empty => true
  | .bool a, .bool b => a = b
  | .int a, .int b => a = b
  | .str a, .str b => a = b
  | _, _ => false

/-- Modelled from the spec: the built-in `in` tester — membership of the
tested value in the `seq` keyword argument's value. -/
def testInSeq (x seqVal : Value) : Bool :=
  match seqVal with
  | .list xs => xs.any (scalarValueEq x)
  | _ => false

/-- Expression evaluation with an observable-effect counter threaded
through.  The `bin` case is `BinaryExpression::Evaluate`
(expression_evaluator.cpp lines 100–178): the left operand is evaluated
first; the right operand is evaluated unconditionally unless the operation
is `In` (`m_oper == In ? InternalValue() : m_rightExpr->Evaluate(context)`);
for `LogicalAnd`/`LogicalOr` the conversion of the right value to bool is
guarded by the left truthiness and the result is a boolean value.  (The
temporary-operand storage reuse of lines 104–114 only selects the result
slot and is not modelled.)  For `In`, the tester created from the right
operand as the `seq` keyword evaluates that operand when the test runs. -/
def evalExpr : Expr → Nat → Value × Nat
  | .const v, s => (v, s)
  | .tick v, s => (v, s + 1)
  | .bin op l r, s =>
      let (leftVal, s1) := evalExpr l s
      let (rightVal, s2) := if op = .In then (Value.empty, s1) else evalExpr r s1
      match op with
      | .LogicalAnd =>
          let left := ConvertToBool leftVal
          let left := if left then ConvertToBool rightVal else left
          (.bool left, s2)
      | .LogicalOr =>
          let left := ConvertToBool leftVal
          let left := if !left then ConvertToBool rightVal else left
          (.bool left, s2)
      | .In =>
          let (seqVal, s3) := evalExpr r s2
          (.bool (testInSeq leftVal seqVal), s3)

/-- Modelled from the spec: the special-function ids (`RangeFn`,
`LoopCycleFn`, `InvalidFn` live in expression_evaluator.h, not under src/);
only their distinctness matters. -/
def RangeFn : Int := 1

/-- Modelled from the spec: the `loop.cycle` special-function id. -/
def LoopCycleFn : Int := 2

/-- Modelled from the spec: the invalid-function sentinel id. -/
def InvalidFn : Int := -1

/-- Evaluation of a bound argument produced by the binder: a caller
expression is evaluated; a `ConstantExpression` default yields its value; an
absent binding (`args[name]` producing a null expression pointer) yields the
empty value. -/
def evalBoundArg : Option (BoundArg Expr) → Nat → Value × Nat
  | none, s => (.empty, s)
  | some (.expr e), s => evalExpr e s
  | some (.defaultConst v), s => (v, s)

/-- The declared argument schema of the global `range` function:
`{{"start"}, {"stop", true}, {"step"}}`. -/
def rangeSchema : List ArgumentInfo :=
  [{ name := "start" }, { name := "stop", mandatory := true }, { name := "step" }]

/-- `CallExpression::CallGlobalRange` (expression_evaluator.cpp lines
327–366): bind the call parameters against the range schema; on failure
return empty.  Evaluate start/stop/step, coerce via `IntegerEvaluator`; if
the step argument is absent the step is 1, and a present step equal to 0
returns empty.  `items_count = (stop - start) / step` with C++ `int64_t`
division (truncation toward zero, `Int.tdiv`), clamped below by 0; the
produced generated list has element `i` equal to `start + step * i`. -/
def CallGlobalRange (params : CallParamsT Expr) (s : Nat) : Value × Nat :=
  let pr := ParseCallParamsImpl rangeSchema params
  if !pr.2 then (.empty, s)
  else
    let args := pr.1.args
    let (startVal, s1) := evalBoundArg (lookupArg args "start") s
    let (stopVal, s2) := evalBoundArg (lookupArg args "stop") s1
    let (stepVal, s3) := evalBoundArg (lookupArg args "step") s2
    let start := IntegerEvaluator startVal
    let stop := IntegerEvaluator stopVal
    let step0 := IntegerEvaluator stepVal
    let stepAbsent := (lookupArg args "step").isNone
    if stepAbsent then
      (rangeList start stop 1, s3)
    else if step0 = 0 then (.empty, s3)
    else (rangeList start stop step0, s3)
where
  /-- `items_count` clamping and the generated list
  (`CreateListAdapterValue(pool, items_count, [start, step](idx) ...)`). -/
  rangeList (start stop step : Int) : Value :=
    let distance := stop - start
    let count := (Int.tdiv distance step).toNat
    .list ((List.range count).map (fun i => .int (start + step * (i : Int))))

/-- `CallExpression::CallLoopCycle` (lines 368–379), with the scope contents
and the call's positional arguments made explicit.  `none` models the two
undefined-behaviour paths of the C++: dereferencing the null result of
`GetIf<MapAdapter>` when the scope's `loop` value is not a map adapter, and
`baseIdx % m_params.posParams.size()` when there are no positional arguments
(modulo by zero).  Otherwise `baseIdx` is converted to `size_t` (two's
complement, then unsigned modulo), and the selected positional argument is
evaluated.  The map-adapter `GetValueByName` (internal_value.h, not under
src/) is modelled from the spec as key lookup defaulting to empty. -/
def CallLoopCycle (scope : List (String × Value)) (posParams : List Expr) (s : Nat) :
    Option (Value × Nat) :=
  match lookupArg scope "loop" with
  | none => some (.empty, s)
  | some (.map m) =>
      if posParams.isEmpty then none
      else
        let baseIdx := IntegerEvaluator ((lookupArg m "index0").getD .empty)
        let idx := (baseIdx.emod (2 ^ 64)).toNat % posParams.length
        some (evalExpr (posParams.getD idx (.const .empty)) s)
  | some _ => none

/-- `GetIf<Callable>`: the callable payload of a value, if any. -/
def getCallable : Value → Option (CallableKind × CallableType × Value)
  | .callable k t r => some (k, t, r)
  | _ => none

/-- Invoking a callable body (an opaque `std::function` in the C++): it
produces its value — for a statement callable, the text it writes, captured
by `GetStreamOnString` and wrapped as a value — and the invocation itself is
an observable effect, counted like a `tick`. -/
def invokeCallable (ret : Value) (s : Nat) : Value × Nat :=
  (ret, s + 1)

/-- Target resolution shared by `CallExpression::CallArbitraryFn` and
`CallExpression::Render`: take the callable payload of the evaluated target,
or retry once on `Subscript(value, "operator()")`. -/
def resolveCallable (fnVal : Value) : Option (CallableKind × CallableType × Value) :=
  match getCallable fnVal with
  | some c => some c
  | none => getCallable (SubscriptStr fnVal "operator()")

/-- `CallExpression::CallArbitraryFn` (lines 299–325), after the target
value has been evaluated: resolve the callable (with the `operator()`
fallback); a target that still is not callable yields empty; a callable
whose kind is neither `GlobalFunc` nor `UserCallable` yields empty *without
invoking it*; otherwise the callable is invoked and its value returned. -/
def CallArbitraryFn (fnVal : Value) (s : Nat) : Value × Nat :=
  match resolveCallable fnVal with
  | none => (.empty, s)
  | some (k, _, ret) =>
      if k ≠ .GlobalFunc ∧ k ≠ .UserCallable then (.empty, s)
      else invokeCallable ret s

/-- `CallExpression::Render` (lines 274–297), after the target value has
been evaluated, restricted to targets that resolve to a callable: the
callable is invoked — with *no* kind check — and the produced value is
written to the stream (for a statement callable the text is streamed
directly).  Returns the written value.  A target that does not resolve to a
callable falls back to `Expression::Render`, which is not needed by any
claim and is left out. -/
def CallExpressionRenderResolved (k : CallableKind) (t : CallableType) (ret : Value) (s : Nat) :
    Value × Nat :=
  match k, t with
  | _, _ => invokeCallable ret s

/-- `CallExpression::Evaluate` (lines 254–272): convert the target value to
an integer id (`ConvertToInt(fn, InvalidFn)`; a callable or other
non-numeric target gives `InvalidFn`) and dispatch: `RangeFn` →
`CallGlobalRange`, `LoopCycleFn` → `CallLoopCycle`, anything else →
`CallArbitraryFn`. -/
def CallExpressionEvaluate (fnVal : Value) (scope : List (String × Value))
    (params : CallParamsT Expr) (s : Nat) : Option (Value × Nat) :=
  let fnId := ConvertToInt fnVal InvalidFn
  if fnId = RangeFn then some (CallGlobalRange params s)
  else if fnId = LoopCycleFn then CallLoopCycle scope params.posParams s
  else some (CallArbitraryFn fnVal s)

end Jinja2Cpp

namespace Jinja2Cpp

/-! ## Binder lemmas

Supporting lemmas about `ParseCallParamsImpl`, leading to the
mandatory-argument claims. -/

theorem lookup_setArg {β : Type} (m : List (String × β)) (k k' : String) (v : β) :
    lookupArg (setArg m k v) k' = if k = k' then some v else lookupArg m k' := by
  induction m with
  | nil => simp [setArg, lookupArg]
  | cons hd tl ih =>
      obtain ⟨k0, v0⟩ := hd
      simp only [setArg]
      by_cases h0 : k0 = k
      · subst h0
        simp only [if_pos rfl, lookupArg]
        split_ifs <;> simp_all [lookupArg]
      · rw [if_neg h0]
        simp only [lookupArg, ih]
        split_ifs <;> simp_all

theorem lookup_setArg_isSome {β : Type} (m : List (String × β)) (k k' : String) (v : β)
    (h : (lookupArg m k').isSome) : (lookupArg (setArg m k v) k').isSome := by
  rw [lookup_setArg]
  split_ifs <;> simp [h]

theorem lookup_setArg_self {β : Type} (m : List (String × β)) (k : String) (v : β) :
    lookupArg (setArg m k v) k = some v := by
  rw [lookup_setArg, if_pos rfl]

theorem lookup_setArg_ne {β : Type} (m : List (String × β)) (k k' : String) (v : β)
    (h : k ≠ k') : lookupArg (setArg m k v) k' = lookupArg m k' := by
  rw [lookup_setArg, if_neg h]

theorem updInfo_apply (f : Nat → ArgInfoRec) (i : Nat) (g : ArgInfoRec → ArgInfoRec) (j : Nat) :
    updInfo f i g j = if j = i then g (f j) else f j := rfl

/-- What `firstPassStep` does to the slot states: the slot at the current
index gets `stateOfSchema`; every other slot's state is untouched (the chain
update at `prevNotFound` only writes the `nextNotFound` field). -/
theorem firstPassStep_state {α : Type} (kw : List (String × α)) (st : FPState α) (idx : Nat)
    (ai : ArgumentInfo) (j : Nat) :
    ((firstPassStep kw st idx ai).info j).state =
      if j = idx then stateOfSchema kw ai else (st.info j).state := by
  simp only [firstPassStep, stateOfSchema]
  cases hkw : lookupArg kw ai.name with
  | some e => split_ifs <;> simp_all [updInfo_apply]
  | none =>
      cases hprev : st.prevNotFound <;> split_ifs <;> simp_all [updInfo_apply] <;>
        (try (split_ifs <;> simp_all))

/-- What `firstPassStep` does to the accumulated bound-argument map. -/
theorem firstPassStep_args {α : Type} (kw : List (String × α)) (st : FPState α) (idx : Nat)
    (ai : ArgumentInfo) :
    (firstPassStep kw st idx ai).args =
      if isPlaceholder ai then st.args
      else
        match lookupArg kw ai.name with
        | some e => setArg st.args ai.name (.expr e)
        | none => st.args := by
  simp only [firstPassStep]
  cases hkw : lookupArg kw ai.name with
  | some e => split_ifs <;> simp_all
  | none => cases hprev : st.prevNotFound <;> split_ifs <;> simp_all

/-- States at indices below the processing window are stable under the
keyword-matching loop. -/
theorem firstPassAux_state_lt {α : Type} (kw : List (String × α)) :
    ∀ (rest : List ArgumentInfo) (idx : Nat) (st : FPState α) (j : Nat), j < idx →
      ((firstPassAux kw rest idx st).info j).state = (st.info j).state := by
  intro rest
  induction rest with
  | nil => intro idx st j _; rfl
  | cons ai tl ih =>
      intro idx st j hj
      show ((firstPassAux kw tl (idx + 1) (firstPassStep kw st idx ai)).info j).state = _
      rw [ih (idx + 1) _ j (by omega), firstPassStep_state, if_neg (by omega)]

/-- The keyword-matching loop never removes a bound argument. -/
theorem firstPassAux_args_mono {α : Type} (kw : List (String × α)) :
    ∀ (rest : List ArgumentInfo) (idx : Nat) (st : FPState α) (k : String),
      (lookupArg st.args k).isSome → (lookupArg (firstPassAux kw rest idx st).args k).isSome := by
  intro rest
  induction rest with
  | nil => intro idx st k h; exact h
  | cons ai tl ih =>
      intro idx st k h
      show (lookupArg (firstPassAux kw tl (idx + 1) (firstPassStep kw st idx ai)).args k).isSome
      refine ih (idx + 1) _ k ?_
      rw [firstPassStep_args]
      split_ifs
      · exact h
      · cases lookupArg kw ai.name with
        | some e => exact lookup_setArg_isSome _ _ _ _ h
        | none => exact h

/-- After the keyword-matching pass, slot `idx + k` (for the `k`-th schema
entry still to be processed) holds exactly `stateOfSchema`. -/
theorem firstPassAux_state {α : Type} (kw : List (String × α)) :
    ∀ (rest : List ArgumentInfo) (idx : Nat) (st : FPState α) (k : Nat) (ai : ArgumentInfo),
      rest.get? k = some ai →
      ((firstPassAux kw rest idx st).info (idx + k)).state = stateOfSchema kw ai := by
  intro rest
  induction rest with
  | nil => intro idx st k ai h; simp at h
  | cons a0 tl ih =>
      intro idx st k ai h
      cases k with
      | zero =>
          have ha : a0 = ai := by simpa using h
          subst ha
          show ((firstPassAux kw tl (idx + 1) (firstPassStep kw st idx a0)).info (idx + 0)).state = _
          rw [firstPassAux_state_lt kw tl (idx + 1) (firstPassStep kw st idx a0) (idx + 0)
            (by omega)]
          rw [firstPassStep_state, if_pos (show idx + 0 = idx by omega)]
      | succ k' =>
          have h' : tl.get? k' = some ai := by simpa using h
          show ((firstPassAux kw tl (idx + 1) (firstPassStep kw st idx a0)).info
            (idx + (k' + 1))).state = _
          have := ih (idx + 1) (firstPassStep kw st idx a0) k' ai h'
          rwa [show idx + (k' + 1) = (idx + 1) + k' by omega]

/-- After the keyword-matching pass, a non-placeholder slot whose name is a
caller keyword has a binding in the accumulated argument map. -/
theorem firstPassAux_args_keyword {α : Type} (kw : List (String × α)) :
    ∀ (rest : List ArgumentInfo) (idx : Nat) (st : FPState α) (k : Nat) (ai : ArgumentInfo),
      rest.get? k = some ai → ¬isPlaceholder ai → (lookupArg kw ai.name).isSome →
      (lookupArg (firstPassAux kw rest idx st).args ai.name).isSome := by
  intro rest
  induction rest with
  | nil => intro idx st k ai h; simp at h
  | cons a0 tl ih =>
      intro idx st k ai h hph hkw
      cases k with
      | zero =>
          have ha : a0 = ai := by simpa using h
          subst ha
          show (lookupArg (firstPassAux kw tl (idx + 1) (firstPassStep kw st idx a0)).args
            a0.name).isSome
          refine firstPassAux_args_mono kw tl (idx + 1) _ a0.name ?_
          rw [firstPassStep_args, if_neg hph]
          obtain ⟨e, he⟩ := Option.isSome_iff_exists.mp hkw
          rw [he]
          rw [lookup_setArg_self]
          rfl
      | succ k' =>
          have h' : tl.get? k' = some ai := by simpa using h
          exact ih (idx + 1) _ k' ai h' hph hkw

/-- `runFirstPass` slot-state characterisation. -/
theorem runFirstPass_state {α : Type} (schema : List ArgumentInfo) (kw : List (String × α))
    (i : Nat) (ai : ArgumentInfo) (h : schema.get? i = some ai) :
    ((runFirstPass schema kw).info i).state = stateOfSchema kw ai := by
  have := firstPassAux_state kw schema 0 (fpInit α) i ai h
  simpa using this

/-- `runFirstPass` binds every non-placeholder slot that matches a caller
keyword. -/
theorem runFirstPass_args_keyword {α : Type} (schema : List ArgumentInfo)
    (kw : List (String × α)) (i : Nat) (ai : ArgumentInfo) (h : schema.get? i = some ai)
    (hph : ¬isPlaceholder ai) (hkw : (lookupArg kw ai.name).isSome) :
    (lookupArg (runFirstPass schema kw).args ai.name).isSome :=
  firstPassAux_args_keyword kw schema 0 (fpInit α) i ai h hph hkw

/-- The positional-mapping loop never removes a bound argument. -/
theorem mapPositionals_args_mono {α : Type} (names : Nat → String) (n : Nat) :
    ∀ (pos : List α) (cur : Option Nat) (info : Nat → ArgInfoRec)
      (acc : List (String × BoundArg α)) (k : String),
      (lookupArg acc k).isSome →
      (lookupArg (mapPositionals names n pos cur info acc).2 k).isSome := by
  intro pos
  induction pos with
  | nil => intro cur info acc k h; cases cur <;> exact h
  | cons e rest ih =>
      intro cur info acc k h
      cases cur with
      | none => exact h
      | some c =>
          show (lookupArg (mapPositionals names n (e :: rest) (some c) info acc).2 k).isSome
          unfold mapPositionals
          split_ifs with h1 h2
          · exact ih _ _ _ k h
          · exact ih _ _ _ k (lookup_setArg_isSome _ _ _ _ h)
          · exact h

/-- After the positional-mapping loop, every slot either keeps its previous
state or has been bound positionally (state `Positional`, name present in
the output argument map). -/
theorem mapPositionals_state {α : Type} (names : Nat → String) (n : Nat) :
    ∀ (pos : List α) (cur : Option Nat) (info : Nat → ArgInfoRec)
      (acc : List (String × BoundArg α)) (j : Nat),
      (((mapPositionals names n pos cur info acc).1 j).state = (info j).state) ∨
      ((((mapPositionals names n pos cur info acc).1 j).state = .Positional) ∧
        (lookupArg (mapPositionals names n pos cur info acc).2 (names j)).isSome) := by
  intro pos
  induction pos with
  | nil => intro cur info acc j; cases cur <;> exact Or.inl rfl
  | cons e rest ih =>
      intro cur info acc j
      cases cur with
      | none => exact Or.inl rfl
      | some c =>
          show (((mapPositionals names n (e :: rest) (some c) info acc).1 j).state = _) ∨ _
          unfold mapPositionals
          split_ifs with h1 h2
          · exact ih _ _ _ j
          · rcases ih (info c).nextNotFound
              (updInfo info c (fun r => { r with state := .Positional }))
              (setArg acc (names c) (.expr e)) j with hst | hpos
            · by_cases hj : j = c
              · subst hj
                refine Or.inr ⟨?_, ?_⟩
                · rw [hst, updInfo_apply, if_pos rfl]
                · refine mapPositionals_args_mono names n rest _ _ _ (names j) ?_
                  rw [lookup_setArg_self]
                  rfl
              · refine Or.inl ?_
                rw [hst, updInfo_apply, if_neg hj]
            · exact Or.inr hpos
          · exact Or.inl rfl

/-- The positional-mapping loop leaves `Ignored` slots `Ignored`. -/
theorem mapPositionals_ignored {α : Type} (names : Nat → String) (n : Nat) :
    ∀ (pos : List α) (cur : Option Nat) (info : Nat → ArgInfoRec)
      (acc : List (String × BoundArg α)) (j : Nat),
      (info j).state = .Ignored →
      ((mapPositionals names n pos cur info acc).1 j).state = .Ignored := by
  intro pos
  induction pos with
  | nil => intro cur info acc j h; cases cur <;> exact h
  | cons e rest ih =>
      intro cur info acc j h
      cases cur with
      | none => exact h
      | some c =>
          show ((mapPositionals names n (e :: rest) (some c) info acc).1 j).state = _
          unfold mapPositionals
          split_ifs with h1 h2
          · exact ih _ _ _ j h
          · refine ih _ _ _ j ?_
            rw [updInfo_apply]
            split_ifs with hj
            · subst hj; exact absurd h h2
            · exact h
          · exact h

/-- The positional-mapping loop never binds a name that belongs only to
`Ignored` slots (in particular, never a placeholder name). -/
theorem mapPositionals_no_new_key {α : Type} (names : Nat → String) (n : Nat) (K : String) :
    ∀ (pos : List α) (cur : Option Nat) (info : Nat → ArgInfoRec)
      (acc : List (String × BoundArg α)),
      lookupArg acc K = none →
      (∀ j, j < n → names j = K → (info j).state = .Ignored) →
      lookupArg (mapPositionals names n pos cur info acc).2 K = none := by
  intro pos
  induction pos with
  | nil => intro cur info acc h _; cases cur <;> exact h
  | cons e rest ih =>
      intro cur info acc h hIgn
      cases cur with
      | none => exact h
      | some c =>
          show lookupArg (mapPositionals names n (e :: rest) (some c) info acc).2 K = none
          unfold mapPositionals
          split_ifs with h1 h2
          · exact ih _ _ _ h hIgn
          · have hnc : names c ≠ K := fun hceq => h2 (hIgn c h1 hceq)
            refine ih _ _ _ ?_ ?_
            · rw [lookup_setArg_ne _ _ _ _ hnc]
              exact h
            · intro j hj hname
              rw [updInfo_apply]
              split_ifs with hjc
              · subst hjc; exact absurd (hIgn j hj hname) h2
              · exact hIgn j hj hname
          · exact h

/-- The defaults/mandatory loop never removes a bound argument. -/
theorem finalizeAux_args_mono {α : Type} (info : Nat → ArgInfoRec) :
    ∀ (rest : List ArgumentInfo) (idx : Nat) (args : List (String × BoundArg α)) (ok : Bool)
      (k : String),
      (lookupArg args k).isSome →
      (lookupArg (finalizeAux (α := α) info rest idx (args, ok)).1 k).isSome := by
  intro rest
  induction rest with
  | nil => intro idx args ok k h; exact h
  | cons ai tl ih =>
      intro idx args ok k h
      show (lookupArg (finalizeAux info (ai :: tl) idx (args, ok)).1 k).isSome
      unfold finalizeAux
      cases (info idx).state with
      | Positional => exact ih _ _ _ k h
      | Keyword => exact ih _ _ _ k h
      | Ignored => exact ih _ _ _ k h
      | NotFoundMandatory => exact ih _ _ _ k h
      | NotFound =>
          split_ifs
          · exact ih _ _ _ k h
          · exact ih _ _ _ k (lookup_setArg_isSome _ _ _ _ h)

/-- The defaults/mandatory loop reports success exactly when it entered with
success and no slot in its window is `NotFoundMandatory`. -/
theorem finalizeAux_ok {α : Type} (info : Nat → ArgInfoRec) :
    ∀ (rest : List ArgumentInfo) (idx : Nat) (args : List (String × BoundArg α)) (ok : Bool),
      (finalizeAux (α := α) info rest idx (args, ok)).2 = true ↔
        (ok = true ∧ ∀ k, k < rest.length → (info (idx + k)).state ≠ .NotFoundMandatory) := by
  intro rest
  induction rest with
  | nil =>
      intro idx args ok
      constructor
      · intro h; exact ⟨h, fun k hk => absurd hk (by simp)⟩
      · intro h; exact h.1
  | cons ai tl ih =>
      intro idx args ok
      show (finalizeAux info (ai :: tl) idx (args, ok)).2 = true ↔ _
      unfold finalizeAux
      cases hst : (info idx).state with
      | NotFoundMandatory =>
          rw [ih]
          constructor
          · rintro ⟨hfalse, _⟩; exact absurd hfalse (by simp)
          · rintro ⟨_, hall⟩
            have := hall 0 (by simp)
            rw [Nat.add_zero] at this
            exact absurd hst this
      | NotFound =>
          split_ifs <;>
          · rw [ih]
            constructor
            · rintro ⟨hok, hall⟩
              refine ⟨hok, fun k hk => ?_⟩
              cases k with
              | zero => rw [Nat.add_zero, hst]; simp
              | succ k' =>
                  have := hall k' (by simpa using hk)
                  rwa [show idx + (k' + 1) = (idx + 1) + k' by omega]
            · rintro ⟨hok, hall⟩
              refine ⟨hok, fun k hk => ?_⟩
              have := hall (k + 1) (by simpa using hk)
              rwa [show (idx + 1) + k = idx + (k + 1) by omega]
      | Positional =>
          rw [ih]
          constructor
          · rintro ⟨hok, hall⟩
            refine ⟨hok, fun k hk => ?_⟩
            cases k with
            | zero => rw [Nat.add_zero, hst]; simp
            | succ k' =>
                have := hall k' (by simpa using hk)
                rwa [show idx + (k' + 1) = (idx + 1) + k' by omega]
          · rintro ⟨hok, hall⟩
            refine ⟨hok, fun k hk => ?_⟩
            have := hall (k + 1) (by simpa using hk)
            rwa [show (idx + 1) + k = idx + (k + 1) by omega]
      | Keyword =>
          rw [ih]
          constructor
          · rintro ⟨hok, hall⟩
            refine ⟨hok, fun k hk => ?_⟩
            cases k with
            | zero => rw [Nat.add_zero, hst]; simp
            | succ k' =>
                have := hall k' (by simpa using hk)
                rwa [show idx + (k' + 1) = (idx + 1) + k' by omega]
          · rintro ⟨hok, hall⟩
            refine ⟨hok, fun k hk => ?_⟩
            have := hall (k + 1) (by simpa using hk)
            rwa [show (idx + 1) + k = idx + (k + 1) by omega]
      | Ignored =>
          rw [ih]
          constructor
          · rintro ⟨hok, hall⟩
            refine ⟨hok, fun k hk => ?_⟩
            cases k with
            | zero => rw [Nat.add_zero, hst]; simp
            | succ k' =>
                have := hall k' (by simpa using hk)
                rwa [show idx + (k' + 1) = (idx + 1) + k' by omega]
          · rintro ⟨hok, hall⟩
            refine ⟨hok, fun k hk => ?_⟩
            have := hall (k + 1) (by simpa using hk)
            rwa [show (idx + 1) + k = idx + (k + 1) by omega]

/-- The defaults/mandatory loop never binds a name that belongs only to
`Ignored` slots. -/
theorem finalizeAux_no_new_key {α : Type} (info : Nat → ArgInfoRec) (K : String) :
    ∀ (rest : List ArgumentInfo) (idx : Nat) (args : List (String × BoundArg α)) (ok : Bool),
      lookupArg args K = none →
      (∀ k ai, rest.get? k = some ai → ai.name = K → (info (idx + k)).state = .Ignored) →
      lookupArg (finalizeAux (α := α) info rest idx (args, ok)).1 K = none := by
  intro rest
  induction rest with
  | nil => intro idx args ok h _; exact h
  | cons ai tl ih =>
      intro idx args ok h hIgn
      have htail : ∀ k a, tl.get? k = some a → a.name = K →
          (info ((idx + 1) + k)).state = .Ignored := by
        intro k a hget hname
        have := hIgn (k + 1) a (by simpa using hget) hname
        rwa [show idx + (k + 1) = (idx + 1) + k by omega] at this
      show lookupArg (finalizeAux info (ai :: tl) idx (args, ok)).1 K = none
      unfold finalizeAux
      cases hst : (info idx).state with
      | Positional => exact ih _ _ _ h htail
      | Keyword => exact ih _ _ _ h htail
      | Ignored => exact ih _ _ _ h htail
      | NotFoundMandatory => exact ih _ _ _ h htail
      | NotFound =>
          split_ifs
          · exact ih _ _ _ h htail
          · refine ih _ _ _ ?_ htail
            have hne : ai.name ≠ K := by
              intro hname
              have := hIgn 0 ai (by simp) hname
              rw [Nat.add_zero, hst] at this
              exact absurd this (by simp)
            rw [lookup_setArg_ne _ _ _ _ hne]
            exact h

/-- The schema-slot name function agrees with the schema list. -/
theorem schemaName_eq (schema : List ArgumentInfo) (i : Nat) (ai : ArgumentInfo)
    (h : schema.get? i = some ai) : schemaName schema i = ai.name := by
  unfold schemaName
  rw [h]
  rfl

theorem parse_args_eq {α : Type} (schema : List ArgumentInfo) (params : CallParamsT α) :
    (ParseCallParamsImpl schema params).1.args = (parseFinal schema params).1 := rfl

theorem parse_ok_eq {α : Type} (schema : List ArgumentInfo) (params : CallParamsT α) :
    (ParseCallParamsImpl schema params).2 = (parseFinal schema params).2 := rfl

theorem parse_extraPos_eq {α : Type} (schema : List ArgumentInfo) (params : CallParamsT α) :
    (ParseCallParamsImpl schema params).1.extraPosArgs
      = params.posParams.drop (parseEatenCount schema params).1 := rfl

theorem parse_extraKw_eq {α : Type} (schema : List ArgumentInfo) (params : CallParamsT α) :
    (ParseCallParamsImpl schema params).1.extraKwArgs
      = params.kwParams.filter (fun kv => (lookupArg (parseFinal schema params).1 kv.1).isNone) :=
  rfl

/-- A binding made by the keyword pass survives to the final argument map. -/
theorem parse_bound_of_fp {α : Type} (schema : List ArgumentInfo) (params : CallParamsT α)
    (k : String) (h : (lookupArg (runFirstPass schema params.kwParams).args k).isSome) :
    (lookupArg (parseFinal schema params).1 k).isSome := by
  unfold parseFinal
  refine finalizeAux_args_mono _ schema 0 _ true k ?_
  unfold parseMapped
  exact mapPositionals_args_mono _ _ _ _ _ _ k h

/-- A binding made by the positional-mapping loop survives to the final
argument map. -/
theorem parse_bound_of_map {α : Type} (schema : List ArgumentInfo) (params : CallParamsT α)
    (k : String) (h : (lookupArg (parseMapped schema params).2 k).isSome) :
    (lookupArg (parseFinal schema params).1 k).isSome := by
  unfold parseFinal
  exact finalizeAux_args_mono _ schema 0 _ true k h

/-- Core of the mandatory-argument law: when the binder reports success,
every mandatory non-placeholder declared parameter has a binding. -/
theorem parse_success_mandatory_bound {α : Type} (schema : List ArgumentInfo)
    (params : CallParamsT α) (hsucc : (parseFinal schema params).2 = true) (i : Nat)
    (ai : ArgumentInfo) (hget : schema.get? i = some ai) (hmand : ai.mandatory = true)
    (hph : ¬isPlaceholder ai) :
    (lookupArg (parseFinal schema params).1 ai.name).isSome := by
  cases hkw : lookupArg params.kwParams ai.name with
  | some e =>
      exact parse_bound_of_fp schema params ai.name
        (runFirstPass_args_keyword schema params.kwParams i ai hget hph (by rw [hkw]; rfl))
  | none =>
      have hNFM : ((runFirstPass schema params.kwParams).info i).state = .NotFoundMandatory := by
        rw [runFirstPass_state schema params.kwParams i ai hget]
        simp [stateOfSchema, hph, hkw, hmand]
      rcases mapPositionals_state (schemaName schema) schema.length
          (params.posParams.take (parseEatenCount schema params).1)
          (some (parseEatenCount schema params).2)
          (runFirstPass schema params.kwParams).info
          (runFirstPass schema params.kwParams).args i with hst | ⟨_, hbound⟩
      · exfalso
        have hsucc' : (finalizeAux (parseMapped schema params).1 schema 0
            ((parseMapped schema params).2, true)).2 = true := hsucc
        have hok := (finalizeAux_ok (parseMapped schema params).1 schema 0
          (parseMapped schema params).2 true).mp hsucc'
        obtain ⟨hlen, -⟩ := List.get?_eq_some.mp hget
        have hne := hok.2 i hlen
        rw [Nat.zero_add] at hne
        apply hne
        show ((parseMapped schema params).1 i).state = .NotFoundMandatory
        unfold parseMapped
        rw [hst, hNFM]
      · rw [schemaName_eq schema i ai hget] at hbound
        exact parse_bound_of_map schema params ai.name hbound

/-- The keyword pass never binds a placeholder name: the `*args`/`**kwargs`
branch skips binding, and every other branch binds a non-placeholder
name. -/
theorem firstPassAux_no_placeholder_key {α : Type} (kw : List (String × α)) (K : String)
    (hK : K = "*args" ∨ K = "**kwargs") :
    ∀ (rest : List ArgumentInfo) (idx : Nat) (st : FPState α),
      lookupArg st.args K = none → lookupArg (firstPassAux kw rest idx st).args K = none := by
  intro rest
  induction rest with
  | nil => intro idx st h; exact h
  | cons ai tl ih =>
      intro idx st h
      show lookupArg (firstPassAux kw tl (idx + 1) (firstPassStep kw st idx ai)).args K = none
      refine ih (idx + 1) _ ?_
      rw [firstPassStep_args]
      split_ifs with hph
      · exact h
      · cases hkw : lookupArg kw ai.name with
        | some e =>
            have hne : ai.name ≠ K := by
              intro he
              apply hph
              unfold isPlaceholder
              rw [he]
              exact hK
            rw [lookup_setArg_ne _ _ _ _ hne]
            exact h
        | none => exact h

/-- A slot whose schema name is a placeholder name is `Ignored` after the
keyword pass. -/
theorem runFirstPass_placeholder_ignored {α : Type} (schema : List ArgumentInfo)
    (kw : List (String × α)) (K : String) (hK : K = "*args" ∨ K = "**kwargs") (j : Nat)
    (hj : j < schema.length) (hname : schemaName schema j = K) :
    ((runFirstPass schema kw).info j).state = .Ignored := by
  have hget : schema.get? j = some (schema.get ⟨j, hj⟩) := List.get?_eq_get hj
  rw [runFirstPass_state schema kw j _ hget]
  have hphj : isPlaceholder (schema.get ⟨j, hj⟩) := by
    unfold isPlaceholder
    rw [← schemaName_eq schema j _ hget, hname]
    exact hK
  unfold stateOfSchema
  rw [if_pos hphj]

/-- No placeholder name is ever bound by the whole binder. -/
theorem parse_no_placeholder_binding {α : Type} (schema : List ArgumentInfo)
    (params : CallParamsT α) (K : String) (hK : K = "*args" ∨ K = "**kwargs") :
    lookupArg (parseFinal schema params).1 K = none := by
  have h1 : lookupArg (runFirstPass schema params.kwParams).args K = none :=
    firstPassAux_no_placeholder_key params.kwParams K hK schema 0 (fpInit α) rfl
  have h2 : lookupArg (parseMapped schema params).2 K = none := by
    unfold parseMapped
    refine mapPositionals_no_new_key (schemaName schema) schema.length K _ _ _ _ h1 ?_
    intro j hj hname
    exact runFirstPass_placeholder_ignored schema params.kwParams K hK j hj hname
  unfold parseFinal
  refine finalizeAux_no_new_key (parseMapped schema params).1 K schema 0 _ true h2 ?_
  intro k ak hget hname
  rw [Nat.zero_add]
  have hIgn : ((runFirstPass schema params.kwParams).info k).state = .Ignored := by
    obtain ⟨hlen, -⟩ := List.get?_eq_some.mp hget
    refine runFirstPass_placeholder_ignored schema params.kwParams K hK k hlen ?_
    rw [schemaName_eq schema k ak hget, hname]
  show ((parseMapped schema params).1 k).state = .Ignored
  unfold parseMapped
  exact mapPositionals_ignored _ _ _ _ _ _ k hIgn

/-- A placeholder step changes only the current slot's state. -/
theorem firstPassStep_placeholder_info {α : Type} (kw : List (String × α)) (st : FPState α)
    (idx : Nat) (ai : ArgumentInfo) (j : Nat) (hph : isPlaceholder ai) :
    (firstPassStep kw st idx ai).info j =
      if j = idx then { st.info j with state := .Ignored } else st.info j := by
  unfold firstPassStep
  rw [if_pos hph]
  rfl

/-- On an all-placeholder schema the keyword pass binds nothing, finds no
mandatory slot and never touches the chain fields. -/
theorem firstPassAux_all_placeholder_fields {α : Type} (kw : List (String × α)) :
    ∀ (rest : List ArgumentInfo) (idx : Nat) (st : FPState α),
      (∀ k ai, rest.get? k = some ai → isPlaceholder ai) →
      (firstPassAux kw rest idx st).args = st.args
      ∧ (firstPassAux kw rest idx st).firstMandatoryIdx = st.firstMandatoryIdx
      ∧ (∀ j, ((firstPassAux kw rest idx st).info j).prevNotFound = (st.info j).prevNotFound
          ∧ ((firstPassAux kw rest idx st).info j).nextNotFound = (st.info j).nextNotFound) := by
  intro rest
  induction rest with
  | nil => intro idx st _; exact ⟨rfl, rfl, fun j => ⟨rfl, rfl⟩⟩
  | cons ai tl ih =>
      intro idx st h
      have hph : isPlaceholder ai := h 0 ai (by simp)
      have htail : ∀ k a, tl.get? k = some a → isPlaceholder a := fun k a hk =>
        h (k + 1) a (by simpa using hk)
      obtain ⟨ha, hm, hpn⟩ := ih (idx + 1) (firstPassStep kw st idx ai) htail
      have hstep : firstPassStep kw st idx ai =
          { st with info := updInfo st.info idx (fun r => { r with state := .Ignored }) } := by
        unfold firstPassStep
        rw [if_pos hph]
      simp only [firstPassAux]
      refine ⟨?_, ?_, ?_⟩
      · rw [ha, hstep]
      · rw [hm, hstep]
      · intro j
        obtain ⟨hp, hn⟩ := hpn j
        constructor
        · rw [hp, hstep]
          show (updInfo st.info idx _ j).prevNotFound = _
          rw [updInfo_apply]
          split_ifs <;> rfl
        · rw [hn, hstep]
          show (updInfo st.info idx _ j).nextNotFound = _
          rw [updInfo_apply]
          split_ifs <;> rfl

/-- `runFirstPass` on an all-placeholder schema: no bindings, no mandatory
slot, chain fields untouched. -/
theorem runFirstPass_all_placeholder {α : Type} (schema : List ArgumentInfo)
    (kw : List (String × α)) (hall : ∀ i ai, schema.get? i = some ai → isPlaceholder ai) :
    (runFirstPass schema kw).args = []
    ∧ (runFirstPass schema kw).firstMandatoryIdx = none
    ∧ ∀ j, ((runFirstPass schema kw).info j).prevNotFound = none
        ∧ ((runFirstPass schema kw).info j).nextNotFound = none := by
  obtain ⟨h1, h2, h3⟩ := firstPassAux_all_placeholder_fields kw schema 0 (fpInit α) hall
  exact ⟨h1, h2, h3⟩

/-- The window-locating loop breaks immediately when the start slot has no
predecessor in the not-found chain, the current slot has no successor, and
`curPosArg` is not at the end of the schema. -/
theorem rangeLoop_stuck (info : Nat → ArgInfoRec) (n nPos fuel start cur eaten : Nat)
    (hprev : (info start).prevNotFound = none) (hnext : (info cur).nextNotFound = none)
    (hcur : cur ≠ n) :
    rangeLoop info n nPos fuel start cur eaten = (eaten, start) := by
  cases fuel with
  | zero => rfl
  | succ f =>
      show rangeLoop info n nPos (f + 1) start cur eaten = (eaten, start)
      unfold rangeLoop
      simp only [hprev, hnext, if_neg hcur]
      split_ifs <;> rfl

/-- The window-locating loop on an all-`Ignored` slot array: nothing is
eaten and the window start stays at slot 0. -/
theorem locateWindow_all_ignored (info : Nat → ArgInfoRec) (n nPos : Nat)
    (hst : ∀ j, j < n → (info j).state = .Ignored)
    (hpn : ∀ j, (info j).prevNotFound = none ∧ (info j).nextNotFound = none) :
    locateWindow info n nPos 0 = (0, 0) := by
  unfold locateWindow
  split_ifs with h
  · have hs1 : scanStart info n 0 = 0 := by
      unfold scanStart
      obtain ⟨m, hm⟩ : ∃ m, n - 0 = m + 1 := ⟨n - 1, by omega⟩
      rw [hm]
      unfold scanStartAux
      rw [if_neg (by simp [hst 0 h.2])]
    show rangeLoop info n nPos (2 * n + 2) (scanStart info n 0) 0
      (if (info (scanStart info n 0)).state = ArgState.Ignored then 0 else 1) = (0, 0)
    rw [hs1, if_pos (hst 0 h.2)]
    exact rangeLoop_stuck info n nPos _ 0 0 0 (hpn 0).1 (hpn 0).2 (by omega)
  · rfl

/-- The defaults/mandatory loop is the identity on a window of `Ignored`
slots. -/
theorem finalizeAux_all_ignored {α : Type} (info : Nat → ArgInfoRec) :
    ∀ (rest : List ArgumentInfo) (idx : Nat) (args : List (String × BoundArg α)) (ok : Bool),
      (∀ k, k < rest.length → (info (idx + k)).state = .Ignored) →
      finalizeAux (α := α) info rest idx (args, ok) = (args, ok) := by
  intro rest
  induction rest with
  | nil => intro idx args ok _; rfl
  | cons ai tl ih =>
      intro idx args ok h
      have h0 : (info idx).state = .Ignored := by
        have := h 0 (by simp)
        rwa [Nat.add_zero] at this
      have htail : ∀ k, k < tl.length → (info ((idx + 1) + k)).state = .Ignored := by
        intro k hk
        have := h (k + 1) (by simpa using hk)
        rwa [show idx + (k + 1) = (idx + 1) + k by omega] at this
      show finalizeAux info (ai :: tl) idx (args, ok) = (args, ok)
      unfold finalizeAux
      rw [h0]
      exact ih (idx + 1) args ok htail

/-- The whole binder on an all-placeholder schema: nothing is bound, every
positional and keyword argument is extra, and binding succeeds. -/
theorem parse_all_placeholder {α : Type} (schema : List ArgumentInfo) (params : CallParamsT α)
    (hall : ∀ i ai, schema.get? i = some ai → isPlaceholder ai) :
    (ParseCallParamsImpl schema params).1.args = []
    ∧ (ParseCallParamsImpl schema params).1.extraPosArgs = params.posParams
    ∧ (ParseCallParamsImpl schema params).1.extraKwArgs = params.kwParams
    ∧ (ParseCallParamsImpl schema params).2 = true := by
  obtain ⟨hargs, hmand, hpn⟩ := runFirstPass_all_placeholder schema params.kwParams hall
  have hstates : ∀ j, j < schema.length →
      ((runFirstPass schema params.kwParams).info j).state = .Ignored := by
    intro j hj
    have hget : schema.get? j = some (schema.get ⟨j, hj⟩) := List.get?_eq_get hj
    rw [runFirstPass_state schema params.kwParams j _ hget]
    unfold stateOfSchema
    rw [if_pos (hall j _ hget)]
  have heaten : parseEatenCount schema params = (0, 0) := by
    show locateWindow (runFirstPass schema params.kwParams).info schema.length
      params.posParams.length
      (match (runFirstPass schema params.kwParams).firstMandatoryIdx with
        | none => 0
        | some i => i) = (0, 0)
    rw [hmand]
    exact locateWindow_all_ignored _ _ _ hstates hpn
  have hmap : parseMapped schema params =
      ((runFirstPass schema params.kwParams).info,
        (runFirstPass schema params.kwParams).args) := by
    unfold parseMapped
    rw [heaten]
    simp [mapPositionals]
  have hfin : parseFinal schema params = ((runFirstPass schema params.kwParams).args, true) := by
    unfold parseFinal
    rw [hmap]
    refine finalizeAux_all_ignored _ schema 0 _ true ?_
    intro k hk
    rw [Nat.zero_add]
    exact hstates k hk
  refine ⟨?_, ?_, ?_, ?_⟩
  · rw [parse_args_eq, hfin]
    exact hargs
  · rw [parse_extraPos_eq, heaten]
    rfl
  · rw [parse_extraKw_eq, hfin]
    simp only [hargs]
    exact List.filter_eq_self.mpr (fun a _ => rfl)
  · rw [parse_ok_eq, hfin]

/-! ## Claim theorems -/

/-- C1, counterexample: the claim says evaluating `false and R` (resp.
`true or R`) never evaluates the right operand `R`.  With `R` a
side-effecting expression, `BinaryExpression::Evaluate` nevertheless
evaluates it: the effect counter ends at 1, not 0. -/
theorem c1_short_circuit_counterexample :
    (evalExpr (.bin .LogicalAnd (.const (.bool false)) (.tick (.int 7))) 0).2 ≠ 0 ∧
    (evalExpr (.bin .LogicalOr (.const (.bool true)) (.tick (.int 7))) 0).2 ≠ 0 := by
  exact ⟨by decide, by decide⟩

/-- C1, amended: for `and`/`or` the left operand is evaluated first and the
right operand is *always* evaluated as well, whatever the left's truthiness
(only the right value's conversion to bool is skipped); the result is the
boolean conjunction/disjunction of the two truthinesses, with the right
operand's effects always performed. -/
theorem c1_and_or_right_always_evaluated (l r : Expr) (s : Nat) :
    evalExpr (.bin .LogicalAnd l r) s
      = (.bool (ConvertToBool (evalExpr l s).1 && ConvertToBool (evalExpr r (evalExpr l s).2).1),
         (evalExpr r (evalExpr l s).2).2) ∧
    evalExpr (.bin .LogicalOr l r) s
      = (.bool (ConvertToBool (evalExpr l s).1 || ConvertToBool (evalExpr r (evalExpr l s).2).1),
         (evalExpr r (evalExpr l s).2).2) := by
  constructor <;>
  · simp only [evalExpr]
    rcases hl : evalExpr l s with ⟨lv, s1⟩
    rcases hr : evalExpr r s1 with ⟨rv, s2⟩
    simp only [reduceCtorEq, if_neg, reduceIte]
    cases hb : ConvertToBool lv <;> simp [hb]

/-- C2: evaluating `range(1, 10, 2)` on the code.  `items_count` is the
truncating division `(10 - 1) / 2 = 4`, so the produced generated list is
`[1, 3, 5, 7]` — four elements, as opposed to the five-element
`[1, 3, 5, 7, 9]` of the claim (`max(0, ceil((10-1)/2)) = 5`). -/
theorem c2_range_1_10_2_on_the_code :
    CallGlobalRange
      { posParams := [.const (.int 1), .const (.int 10), .const (.int 2)], kwParams := [] } 0
      = (.list [.int 1, .int 3, .int 5, .int 7], 0) ∧
    [Value.int 1, .int 3, .int 5, .int 7].length ≠ 5 := by
  exact ⟨rfl, by decide⟩

/-- C3: binding `f(1, 2, x=3)` against `(a, x, b='d')` succeeds with
`a` ↦ first positional, `b` ↦ second positional, `x` ↦ the keyword
argument, nothing left over: the keyword binds `x` first, the positional
window starts at the mandatory unbound `a`, and the positionals fill `a`
then `b` in schema order without touching `x`. -/
theorem c3_bind_mixed_call :
    (ParseCallParamsImpl c3schema c3params).2 = true
    ∧ lookupArg (ParseCallParamsImpl c3schema c3params).1.args "a" = some (.expr 101)
    ∧ lookupArg (ParseCallParamsImpl c3schema c3params).1.args "b" = some (.expr 102)
    ∧ lookupArg (ParseCallParamsImpl c3schema c3params).1.args "x" = some (.expr 103)
    ∧ (ParseCallParamsImpl c3schema c3params).1.extraPosArgs = []
    ∧ (ParseCallParamsImpl c3schema c3params).1.extraKwArgs = [] := by
  exact ⟨rfl, rfl, rfl, rfl, rfl, rfl⟩

/-- C4, counterexample: a schema whose single declared parameter is the
placeholder `*args` marked mandatory.  The binder reports success, yet that
mandatory declared parameter has no binding in the returned args map — the
placeholder branch of the keyword pass marks the slot `Ignored` before the
mandatory flag is ever consulted. -/
theorem c4_mandatory_placeholder_counterexample :
    (ParseCallParamsImpl (α := Nat) [{ name := "*args", mandatory := true }]
      { posParams := [], kwParams := [] }).2 = true
    ∧ lookupArg (ParseCallParamsImpl (α := Nat) [{ name := "*args", mandatory := true }]
        { posParams := [], kwParams := [] }).1.args "*args" = none := by
  exact ⟨rfl, rfl⟩

/-- C4, amended (restricted to declared parameters that are not the
`*args`/`**kwargs` placeholders): if the binder reports success, every such
mandatory declared parameter has a binding in the returned args map;
conversely, such a mandatory declared parameter left unbound forces
`isSucceeded = false`. -/
theorem c4_success_iff_mandatory_bound {α : Type} (schema : List ArgumentInfo)
    (params : CallParamsT α) :
    ((ParseCallParamsImpl schema params).2 = true →
      ∀ i ai, schema.get? i = some ai → ai.mandatory = true → ¬isPlaceholder ai →
        (lookupArg (ParseCallParamsImpl schema params).1.args ai.name).isSome)
    ∧ (∀ i ai, schema.get? i = some ai → ai.mandatory = true → ¬isPlaceholder ai →
        lookupArg (ParseCallParamsImpl schema params).1.args ai.name = none →
        (ParseCallParamsImpl schema params).2 = false) := by
  have fwd : (ParseCallParamsImpl schema params).2 = true →
      ∀ i ai, schema.get? i = some ai → ai.mandatory = true → ¬isPlaceholder ai →
      (lookupArg (ParseCallParamsImpl schema params).1.args ai.name).isSome := by
    intro hsucc i ai hget hmand hph
    rw [parse_args_eq]
    refine parse_success_mandatory_bound schema params ?_ i ai hget hmand hph
    rw [← parse_ok_eq]
    exact hsucc
  refine ⟨fwd, ?_⟩
  intro i ai hget hmand hph hnone
  cases hok : (ParseCallParamsImpl schema params).2 with
  | false => rfl
  | true =>
      exfalso
      have hsome := fwd hok i ai hget hmand hph
      rw [hnone] at hsome
      exact absurd hsome (by simp)

/-- C4, witness for the amended theorem: binding `f(7)` against the schema
`(a)` (mandatory) succeeds and the theorem yields the binding for `a`. -/
theorem c4_success_iff_mandatory_bound_witness :
    (lookupArg (ParseCallParamsImpl (α := Nat) [{ name := "a", mandatory := true }]
      { posParams := [7], kwParams := [] }).1.args "a").isSome :=
  (c4_success_iff_mandatory_bound [{ name := "a", mandatory := true }]
    { posParams := [7], kwParams := [] }).1 rfl 0 { name := "a", mandatory := true } rfl rfl
    (by decide)

/-- C5: two render-aborting inputs of `CallExpression::CallLoopCycle`,
reached through the `Evaluate` dispatch on the `LoopCycleFn` id.  With zero
positional arguments the code computes `baseIdx % 0` (undefined behaviour);
with `loop` bound to a non-map the code dereferences the null result of
`GetIf<MapAdapter>`.  Both are modelled as `none` — evaluation does not
return a value, contradicting the claim's totality. -/
theorem c5_loop_cycle_aborts :
    CallExpressionEvaluate (.int LoopCycleFn) [("loop", .map [("index0", .int 0)])]
      { posParams := [], kwParams := [] } 0 = none ∧
    CallExpressionEvaluate (.int LoopCycleFn) [("loop", .int 5)]
      { posParams := [.const (.int 1)], kwParams := [] } 0 = none := by
  exact ⟨rfl, rfl⟩

/-- C6, counterexample: `"The quick brown fox" | truncate(9, false, "...", 2)`
on the code.  Index 9 of the source holds a space, so the word-boundary scan
stops immediately and the cut keeps the first nine characters: the result is
`"The quick..."`, not the claim's `"The..."`. -/
theorem c6_truncate_example_counterexample :
    TruncateFilter "The quick brown fox".toList (some (.int 9)) (some (.bool false))
      (some (.str "...".toList)) (some (.int 2)) = "The quick...".toList
    ∧ "The quick...".toList ≠ "The...".toList := by
  exact ⟨by decide, by decide⟩

/-- C6, amended: the truncate defaults are length=255, killwords=false,
end="...", leeway=5 (exercised by the all-defaults 300-character instance);
a source no longer than `length` is returned unchanged; with
killwords=false the filter scans forward from index `length` over at most
`leeway` alphanumerics for a boundary, scans back to the start of the word
if still inside one, erases, right-trims and appends `end` (backward-scan
instance), and `"The quick brown fox" | truncate(9, false, "...", 2)`
yields `"The quick..."`. -/
theorem c6_truncate_amended :
    (∀ (src endStr : List Char) (length leeway : Int) (kw : Bool),
        (src.length : Int) ≤ length → TruncateFilterImpl src length kw endStr leeway = src)
    ∧ TruncateFilter "The quick brown fox".toList (some (.int 9)) (some (.bool false))
        (some (.str "...".toList)) (some (.int 2)) = "The quick...".toList
    ∧ TruncateFilter (List.replicate 300 'a') none none none none = "...".toList
    ∧ TruncateFilter "abc defghij".toList (some (.int 5)) (some (.bool false))
        (some (.str "!".toList)) (some (.int 2)) = "abc!".toList := by
  refine ⟨fun src endStr length leeway kw h => ?_, by decide, by decide, by decide⟩
  unfold TruncateFilterImpl
  rw [if_pos h]

/-- C6, witness for the amended theorem's hypothesis: a five-character
source with length 9 is returned unchanged. -/
theorem c6_truncate_amended_witness :
    TruncateFilterImpl "hello".toList 9 false "...".toList 5 = "hello".toList :=
  c6_truncate_amended.1 "hello".toList "...".toList 9 5 false (by decide)

/-- C7: for every schema containing `*args`/`**kwargs` placeholder slots
(and in fact for every schema), the placeholders consume nothing: no
placeholder name is ever bound in `args`; the positionals beyond the
consumed count are `extra_pos_args` in caller order; the keyword arguments
that did not match a declared name are `extra_kw_args` in caller order; and
on a schema of placeholders only, binding consumes nothing at all — no
bindings, every positional and keyword argument extra, success reported. -/
theorem c7_placeholder_slots {α : Type} (schema : List ArgumentInfo) (params : CallParamsT α)
    (hph : ∃ i ai, schema.get? i = some ai ∧ isPlaceholder ai) :
    lookupArg (ParseCallParamsImpl schema params).1.args "*args" = none
    ∧ lookupArg (ParseCallParamsImpl schema params).1.args "**kwargs" = none
    ∧ (ParseCallParamsImpl schema params).1.extraPosArgs
        = params.posParams.drop (parseEatenCount schema params).1
    ∧ (ParseCallParamsImpl schema params).1.extraKwArgs
        = params.kwParams.filter
            (fun kv => (lookupArg (ParseCallParamsImpl schema params).1.args kv.1).isNone)
    ∧ ((∀ i ai, schema.get? i = some ai → isPlaceholder ai) →
        (ParseCallParamsImpl schema params).1.args = []
        ∧ (ParseCallParamsImpl schema params).1.extraPosArgs = params.posParams
        ∧ (ParseCallParamsImpl schema params).1.extraKwArgs = params.kwParams
        ∧ (ParseCallParamsImpl schema params).2 = true) := by
  clear hph
  refine ⟨?_, ?_, parse_extraPos_eq schema params, ?_, parse_all_placeholder schema params⟩
  · rw [parse_args_eq]
    exact parse_no_placeholder_binding schema params "*args" (Or.inl rfl)
  · rw [parse_args_eq]
    exact parse_no_placeholder_binding schema params "**kwargs" (Or.inr rfl)
  · rw [parse_extraKw_eq]
    rw [parse_args_eq]

/-- C7, witness: the schema `(*args)` with the call `f(5, z=9)` — nothing is
bound, the positional and the unmatched keyword both land in the extras. -/
theorem c7_placeholder_slots_witness :
    lookupArg (ParseCallParamsImpl (α := Nat) [{ name := "*args" }]
      { posParams := [5], kwParams := [("z", 9)] }).1.args "*args" = none
    ∧ (ParseCallParamsImpl (α := Nat) [{ name := "*args" }]
        { posParams := [5], kwParams := [("z", 9)] }).1.extraPosArgs = [5]
    ∧ (ParseCallParamsImpl (α := Nat) [{ name := "*args" }]
        { posParams := [5], kwParams := [("z", 9)] }).1.extraKwArgs = [("z", 9)] := by
  have h := c7_placeholder_slots (α := Nat) [{ name := "*args" }]
    { posParams := [5], kwParams := [("z", 9)] } ⟨0, { name := "*args" }, rfl, Or.inl rfl⟩
  have hall : ∀ i ai, ([{ name := "*args" }] : List ArgumentInfo).get? i = some ai →
      isPlaceholder ai := by
    intro i ai hget
    cases i with
    | zero =>
        have : ({ name := "*args" } : ArgumentInfo) = ai := by simpa using hget
        rw [← this]
        exact Or.inl rfl
    | succ n => simp [List.get?] at hget
  have hd := h.2.2.2.2 hall
  exact ⟨h.1, hd.2.1, hd.2.2.1⟩

/-- C8, counterexample: `"aa" | replace("a", "ab", 2)`.  The code iterates
`replace_first`, each pass rescanning from the start, so the second pass
matches the `a` inside the replacement text and produces `"abba"`; the
claim's non-overlapping first-2-occurrences semantics produces `"abab"`. -/
theorem c8_replace_counterexample :
    ReplaceFilter "aa".toList "a".toList "ab".toList 2 = "abba".toList
    ∧ specReplaceN "a".toList "ab".toList 2 "aa".toList = "abab".toList
    ∧ "abba".toList ≠ "abab".toList := by
  exact ⟨by decide, by decide, by decide⟩

/-- C8, amended: with count=0 the filter replaces every occurrence left to
right, non-overlapping; with count=n>0 it applies n successive
first-occurrence replacements, each rescanning from the start of the
current string (so replacement text can be matched again).  For n=1 this
coincides with the claim's replace-the-first-occurrence semantics, and in
particular `"abcabc" | replace("a", "X", 1)` yields `"Xbcabc"`. -/
theorem c8_replace_amended :
    (∀ s old new : List Char, ReplaceFilter s old new 1 = specReplaceN old new 1 s)
    ∧ (∀ s old new : List Char, ReplaceFilter s old new 0 = replaceAll old new s)
    ∧ ReplaceFilter "abcabc".toList "a".toList "X".toList 1 = "Xbcabc".toList := by
  refine ⟨fun s old new => ?_, fun s old new => rfl, by decide⟩
  show repFirstN old new 1 s = specReplaceN old new 1 s
  cases h : findSubstr old s <;> simp [repFirstN, replaceFirst, specReplaceN, h]

/-- C9: with killwords=true and a source length in the band
`length < |src| ≤ length + leeway`, the truncate filter returns the whole
source unchanged — nothing is cut and no end marker is appended. -/
theorem c9_truncate_killwords_band (src endStr : List Char) (length leeway : Int)
    (h1 : length < (src.length : Int)) (h2 : (src.length : Int) ≤ length + leeway) :
    TruncateFilterImpl src length true endStr leeway = src := by
  unfold TruncateFilterImpl
  rw [if_neg (by omega), if_pos rfl, if_neg (by omega)]

/-- C9, witness: `"abcdef"` (6 characters) with length 4, leeway 5,
killwords=true comes back unchanged. -/
theorem c9_truncate_killwords_band_witness :
    TruncateFilterImpl "abcdef".toList 4 true "...".toList 5 = "abcdef".toList :=
  c9_truncate_killwords_band "abcdef".toList "...".toList 4 5 (by decide) (by decide)

/-- C10: a call target that resolves — directly or via the
`Subscript(value, "operator()")` fallback — to a callable whose kind is
neither `GlobalFunc` nor `UserCallable` makes the value-producing
`Evaluate`/`CallArbitraryFn` path return the empty value without invoking
the callable (the effect counter is unchanged), while the `Render` path
invokes it unconditionally. -/
theorem c10_non_invocable_kind_empty (k : CallableKind) (t : CallableType) (ret : Value)
    (s : Nat) (hk : k ≠ .GlobalFunc ∧ k ≠ .UserCallable) :
    (∀ fnVal, resolveCallable fnVal = some (k, t, ret) → CallArbitraryFn fnVal s = (.empty, s))
    ∧ CallArbitraryFn (.callable k t ret) s = (.empty, s)
    ∧ CallArbitraryFn (.map [("operator()", .callable k t ret)]) s = (.empty, s)
    ∧ CallExpressionEvaluate (.callable k t ret) [] { posParams := [], kwParams := [] } s
        = some (.empty, s)
    ∧ CallExpressionRenderResolved k t ret s = (ret, s + 1) := by
  have base : ∀ fnVal, resolveCallable fnVal = some (k, t, ret) →
      CallArbitraryFn fnVal s = (.empty, s) := by
    intro fnVal hres
    unfold CallArbitraryFn
    rw [hres]
    simp only [if_pos hk]
  refine ⟨base, base (.callable k t ret) rfl,
    base (.map [("operator()", .callable k t ret)]) rfl, ?_, rfl⟩
  have hdisp : CallExpressionEvaluate (.callable k t ret) [] { posParams := [], kwParams := [] } s
      = some (CallArbitraryFn (.callable k t ret) s) := rfl
  rw [hdisp, base (.callable k t ret) rfl]

/-- C10, witness: a `Macro`-kind expression callable — the `Evaluate` path
yields empty with the effect counter untouched. -/
theorem c10_non_invocable_kind_empty_witness :
    CallArbitraryFn (.callable .Macro .Expression (.int 9)) 3 = (.empty, 3) :=
  (c10_non_invocable_kind_empty .Macro .Expression (.int 9) 3
    ⟨by decide, by decide⟩).2.1

end Jinja2Cpp
